import Mathlib

/-!
Verification of the HNG-13 string-analyzer service (`analyzer/` app).

The development shallowly embeds the Python sources:
* `analyzer/utils.py` (`analyze_string`) — the pure analyzer,
* `analyzer/serializers.py` — serialization and the duplicate check on create,
* `analyzer/views.py` — the list/filter endpoint, the create endpoint, the
  detail (get/delete) endpoint and the natural-language filter endpoint.

Strings are modelled as Lean `String`s (sequences of Unicode code points,
matching Python's `str`); the character-level primitives (`str.lower`,
`str.split`, `str.strip`, the regex character classes) are modelled at ASCII
fidelity, which covers every character class the source actually uses
(`[a-zA-Z0-9]`, `\d`, `[a-z]`) and the ASCII inputs of the specification.
Machine-level hashing is embedded as a full executable SHA-256 over `Nat`
with explicit reduction modulo `2 ^ 32`.
-/

namespace StringAnalyzer

/-! ## Character primitives (ASCII model of the Python built-ins) -/

/-- ASCII model of Python `str.lower` on a single character. -/
def pyLower (c : Char) : Char :=
  if 'A' ≤ c ∧ c ≤ 'Z' then Char.ofNat (c.toNat + 32) else c

/-- The regex character class `[a-zA-Z0-9]` from `analyze_string`. -/
def isAsciiAlnum (c : Char) : Bool :=
  (('a' ≤ c && c ≤ 'z') || ('A' ≤ c && c ≤ 'Z') || ('0' ≤ c && c ≤ '9'))

/-- The regex character class `\d` (ASCII digits). -/
def isAsciiDigit (c : Char) : Bool :=
  ('0' ≤ c && c ≤ '9')

/-- The regex character class `[a-z]`. -/
def isLowerAZ (c : Char) : Bool :=
  ('a' ≤ c && c ≤ 'z')

/-- The whitespace characters recognised by Python's `str.split()` /
`str.strip()` (ASCII fragment). -/
def isPySpace (c : Char) : Bool :=
  (c == ' ' || c == '\t' || c == '\n' || c == '\r' || c == '\x0b' || c == '\x0c')

/-- Lowercased character list of a string: Python `s.lower()`. -/
def lowerList (s : String) : List Char :=
  s.toList.map pyLower

/-! ## List-level string primitives -/

/-- Python substring test `needle in hay`. -/
def listContains (needle : List Char) : List Char → Bool
  | [] => needle.isEmpty
  | c :: t => needle.isPrefixOf (c :: t) || listContains needle t

/-- Python `s.strip()`: drop leading and trailing whitespace. -/
def stripWs (l : List Char) : List Char :=
  ((l.dropWhile isPySpace).reverse.dropWhile isPySpace).reverse

/-- Python `s.strip()` at the `String` level. -/
def pyStrip (s : String) : String :=
  String.mk (stripWs s.toList)

/-- Truthiness of `value.strip()` being empty: the value is blank. -/
def isBlank (s : String) : Bool :=
  s.toList.all isPySpace

/-- Accumulator loop of Python `str.split()` (no separator argument):
split on whitespace runs, discarding empty tokens. -/
def pySplitGo : List Char → List Char → List (List Char)
  | [], cur => if cur.isEmpty then [] else [cur.reverse]
  | c :: t, cur =>
    if isPySpace c then
      if cur.isEmpty then pySplitGo t [] else cur.reverse :: pySplitGo t []
    else pySplitGo t (c :: cur)

/-- Python `value.split()`. -/
def pySplit (l : List Char) : List (List Char) :=
  pySplitGo l []

/-- Numeric value of a digit run (`int` applied to a digit string). -/
def digitsVal (l : List Char) : Nat :=
  l.foldl (fun a c => a * 10 + (c.toNat - 48)) 0

/-- `some` of the numeric value when the list is a non-empty run of ASCII
digits, `none` otherwise. -/
def natDigits (l : List Char) : Option Nat :=
  if !l.isEmpty && l.all isAsciiDigit then some (digitsVal l) else none

/-- Python `int(s)` on a string: optional surrounding whitespace, optional
sign, then digits; `none` models `ValueError`. -/
def pyInt (s : String) : Option Int :=
  match stripWs s.toList with
  | [] => none
  | c :: r =>
    if c == '+' then (natDigits r).map Int.ofNat
    else if c == '-' then (natDigits r).map (fun n => -(n : Int))
    else (natDigits (c :: r)).map Int.ofNat

/-! ## SHA-256 (`hashlib.sha256(value.encode('utf-8')).hexdigest()`) -/

/-- UTF-8 encoding of one code point. -/
def utf8Char (n : Nat) : List Nat :=
  if n < 128 then [n]
  else if n < 2048 then [192 + n / 64, 128 + n % 64]
  else if n < 65536 then [224 + n / 4096, 128 + (n / 64) % 64, 128 + n % 64]
  else [240 + n / 262144, 128 + (n / 4096) % 64, 128 + (n / 64) % 64, 128 + n % 64]

/-- UTF-8 byte sequence of a string (`value.encode('utf-8')`). -/
def utf8Bytes (l : List Char) : List Nat :=
  (l.map (fun c => utf8Char c.toNat)).flatten

/-- Reduction modulo `2 ^ 32`. -/
def m32 (n : Nat) : Nat := n % 4294967296

/-- 32-bit right rotation. -/
def rotr (k n : Nat) : Nat :=
  m32 ((n >>> k) ||| (n <<< (32 - k)))

def bsig0 (n : Nat) : Nat := (rotr 2 n) ^^^ (rotr 13 n) ^^^ (rotr 22 n)

def bsig1 (n : Nat) : Nat := (rotr 6 n) ^^^ (rotr 11 n) ^^^ (rotr 25 n)

def ssig0 (n : Nat) : Nat := (rotr 7 n) ^^^ (rotr 18 n) ^^^ (n >>> 3)

def ssig1 (n : Nat) : Nat := (rotr 17 n) ^^^ (rotr 19 n) ^^^ (n >>> 10)

def shaCh (e f g : Nat) : Nat := (e &&& f) ^^^ ((e ^^^ 4294967295) &&& g)

def shaMaj (a b c : Nat) : Nat := (a &&& b) ^^^ (a &&& c) ^^^ (b &&& c)

/-- The SHA-256 round constants (decimal). -/
def shaK : List Nat :=
  [1116352408, 1899447441, 3049323471, 3921009573, 961987163, 1508970993,
   2453635748, 2870763221, 3624381080, 310598401, 607225278, 1426881987,
   1925078388, 2162078206, 2614888103, 3248222580, 3835390401, 4022224774,
   264347078, 604807628, 770255983, 1249150122, 1555081692, 1996064986,
   2554220882, 2821834349, 2952996808, 3210313671, 3336571891, 3584528711,
   113926993, 338241895, 666307205, 773529912, 1294757372, 1396182291,
   1695183700, 1986661051, 2177026350, 2456956037, 2730485921, 2820302411,
   3259730800, 3345764771, 3516065817, 3600352804, 4094571909, 275423344,
   430227734, 506948616, 659060556, 883997877, 958139571, 1322822218,
   1537002063, 1747873779, 1955562222, 2024104815, 2227730452, 2361852424,
   2428436474, 2756734187, 3204031479, 3329325298]

/-- Big-endian 8-byte encoding (message bit length). -/
def be64 (n : Nat) : List Nat :=
  [(n >>> 56) % 256, (n >>> 48) % 256, (n >>> 40) % 256, (n >>> 32) % 256,
   (n >>> 24) % 256, (n >>> 16) % 256, (n >>> 8) % 256, n % 256]

/-- Big-endian 4-byte encoding of a 32-bit word. -/
def be32 (n : Nat) : List Nat :=
  [(n >>> 24) % 256, (n >>> 16) % 256, (n >>> 8) % 256, n % 256]

/-- SHA-256 padding: `0x80`, zero bytes to 56 mod 64, then the bit length. -/
def padMsg (msg : List Nat) : List Nat :=
  let z := (120 - (msg.length + 1) % 64) % 64
  msg ++ 128 :: List.replicate z 0 ++ be64 (8 * msg.length)

/-- Split a byte list into 64-byte blocks (structural recursion on a fuel
bound of `l.length`, which dominates the number of blocks). -/
def blocks64Go : Nat → List Nat → List (List Nat)
  | 0, _ => []
  | _, [] => []
  | fuel + 1, c :: t => ((c :: t).take 64) :: blocks64Go fuel ((c :: t).drop 64)

/-- Split a byte list into 64-byte blocks. -/
def blocks64 (l : List Nat) : List (List Nat) :=
  blocks64Go l.length l

/-- Group bytes into big-endian 32-bit words. -/
def toWords32 : List Nat → List Nat
  | a :: b :: c :: d :: t => (((a * 256 + b) * 256 + c) * 256 + d) :: toWords32 t
  | _ => []

/-- Extend the 16 block words by `k` further schedule words. -/
def extendSched (w : List Nat) : Nat → List Nat
  | 0 => w
  | k + 1 =>
    let i := w.length
    let nw := m32 (ssig1 (w.getD (i - 2) 0) + w.getD (i - 7) 0 +
                   ssig0 (w.getD (i - 15) 0) + w.getD (i - 16) 0)
    extendSched (w ++ [nw]) k

/-- The eight 32-bit working variables. -/
structure H8 where
  a : Nat
  b : Nat
  c : Nat
  d : Nat
  e : Nat
  f : Nat
  g : Nat
  h : Nat
deriving Repr, DecidableEq

/-- The SHA-256 initial hash value. -/
def shaH0 : H8 :=
  ⟨1779033703, 3144134277, 1013904242, 2773480762,
   1359893119, 2600822924, 528734635, 1541459225⟩

/-- One SHA-256 round. -/
def shaRound (s : H8) (k w : Nat) : H8 :=
  let t1 := m32 (s.h + bsig1 s.e + shaCh s.e s.f s.g + k + w)
  let t2 := m32 (bsig0 s.a + shaMaj s.a s.b s.c)
  ⟨m32 (t1 + t2), s.a, s.b, s.c, m32 (s.d + t1), s.e, s.f, s.g⟩

/-- Compress one 64-byte block into the running hash. -/
def compressBlock (hs : H8) (block : List Nat) : H8 :=
  let w := extendSched (toWords32 block) 48
  let s := (shaK.zip w).foldl (fun st p => shaRound st p.1 p.2) hs
  ⟨m32 (hs.a + s.a), m32 (hs.b + s.b), m32 (hs.c + s.c), m32 (hs.d + s.d),
   m32 (hs.e + s.e), m32 (hs.f + s.f), m32 (hs.g + s.g), m32 (hs.h + s.h)⟩

/-- SHA-256 digest (32 bytes) of a byte message. -/
def sha256Bytes (msg : List Nat) : List Nat :=
  let hs := (blocks64 (padMsg msg)).foldl compressBlock shaH0
  ([hs.a, hs.b, hs.c, hs.d, hs.e, hs.f, hs.g, hs.h].map be32).flatten

/-- Lowercase hex digit. -/
def hexDigitChar (n : Nat) : Char :=
  if n < 10 then Char.ofNat (48 + n) else Char.ofNat (87 + n)

/-- Two-character lowercase hex encoding of one byte. -/
def byteHex (b : Nat) : List Char :=
  [hexDigitChar (b / 16), hexDigitChar (b % 16)]

/-- `hashlib.sha256(bytes).hexdigest()`. -/
def sha256Hex (msg : List Nat) : String :=
  String.mk ((sha256Bytes msg).map byteHex).flatten

/-! ## Character frequency (`dict(Counter(value))`) -/

/-- Count one character into the frequency map: increment an existing key,
otherwise append a new entry (dict insertion order). -/
def bumpChar (m : List (Char × Nat)) (c : Char) : List (Char × Nat) :=
  if m.any (fun p => p.1 == c) then
    m.map (fun p => if p.1 == c then (p.1, p.2 + 1) else p)
  else m ++ [(c, 1)]

/-- `dict(Counter(l))` as an association list in insertion order. -/
def freqMap (l : List Char) : List (Char × Nat) :=
  l.foldl bumpChar []

/-! ## The analyzer (`analyzer/utils.py`, `analyze_string`) -/

/-- Palindrome normalization: `re.sub(r'[^a-zA-Z0-9]', '', value.lower())`. -/
def normalizePal (l : List Char) : List Char :=
  (l.map pyLower).filter isAsciiAlnum

/-- The dictionary returned by `analyze_string`. -/
structure Analysis where
  length : Nat
  is_palindrome : Bool
  unique_characters : Nat
  word_count : Nat
  sha256_hash : String
  character_frequency_map : List (Char × Nat)
deriving Repr, DecidableEq

/-- `analyze_string(value)` from `analyzer/utils.py`: length, palindrome
status on the lowercased alphanumeric normalization (empty → `False`),
distinct-character count, `len(value.split())`, SHA-256 hex digest of the
unmodified value, and `dict(Counter(value))`. -/
def analyzeString (value : String) : Analysis :=
  let l := value.toList
  let normalized := normalizePal l
  { length := l.length
    is_palindrome := if normalized.isEmpty then false else normalized == normalized.reverse
    unique_characters := l.dedup.length
    word_count := (pySplit l).length
    sha256_hash := sha256Hex (utf8Bytes l)
    character_frequency_map := freqMap l }

/-! ## The stored record (`analyzer/models.py`, `AnalyzedString`) -/

/-- A stored `AnalyzedString` row. The store itself is modelled as a
`List AnalyzedString` held newest-first (the order produced by
`order_by('-created_at')`). -/
structure AnalyzedString where
  value : String
  length : Nat
  is_palindrome : Bool
  unique_characters : Nat
  word_count : Nat
  sha256_hash : String
  character_frequency_map : List (Char × Nat)
deriving Repr, DecidableEq

/-- The record built by `AnalyzedStringSerializer.create` from
`analyze_string(value)`. -/
def mkRecord (v : String) : AnalyzedString :=
  let a := analyzeString v
  { value := v
    length := a.length
    is_palindrome := a.is_palindrome
    unique_characters := a.unique_characters
    word_count := a.word_count
    sha256_hash := a.sha256_hash
    character_frequency_map := a.character_frequency_map }

/-- The serialized representation (`AnalyzedStringSerializer` field list):
`id` is a `CharField` sourced from `sha256_hash`. -/
structure SerializedRecord where
  id : String
  value : String
  length : Nat
  is_palindrome : Bool
  unique_characters : Nat
  word_count : Nat
  sha256_hash : String
  character_frequency_map : List (Char × Nat)
deriving Repr, DecidableEq

/-- `AnalyzedStringSerializer` applied to one record. -/
def serializeRecord (r : AnalyzedString) : SerializedRecord :=
  { id := r.sha256_hash
    value := r.value
    length := r.length
    is_palindrome := r.is_palindrome
    unique_characters := r.unique_characters
    word_count := r.word_count
    sha256_hash := r.sha256_hash
    character_frequency_map := r.character_frequency_map }

/-! ## The list/filter endpoint (`StringListCreateView.get_queryset` / `list`) -/

/-- Case-insensitive substring containment: Django's `value__icontains`. -/
def icontainsB (v : String) (s : String) : Bool :=
  listContains (s.toList.map pyLower) (v.toList.map pyLower)

/-- The raw query parameters of `GET /strings` (`params.get(...)`:
`none` = absent). -/
structure QueryParams where
  is_palindrome : Option String := none
  min_length : Option String := none
  max_length : Option String := none
  word_count : Option String := none
  contains_character : Option String := none
deriving Repr, DecidableEq

/-- Python `s.lower()` at the `String` level. -/
def pyLowerStr (s : String) : String :=
  String.mk (s.toList.map pyLower)

/-- `is_palindrome.lower() in ['true', '1', 'yes']`. -/
def isTruthyPal (s : String) : Bool :=
  pyLowerStr s == "true" || pyLowerStr s == "1" || pyLowerStr s == "yes"

/-- `is_palindrome.lower() in ['false', '0', 'no']`. -/
def isFalsyPal (s : String) : Bool :=
  pyLowerStr s == "false" || pyLowerStr s == "0" || pyLowerStr s == "no"

/-- Palindrome filter step of `get_queryset`: recognised truthy strings
filter on `True`, recognised falsy strings on `False`, anything else is
ignored. -/
def stagePal (p : QueryParams) (q : List AnalyzedString) : List AnalyzedString :=
  match p.is_palindrome with
  | none => q
  | some s =>
    if isTruthyPal s then q.filter (fun r => r.is_palindrome == true)
    else if isFalsyPal s then q.filter (fun r => r.is_palindrome == false)
    else q

/-- `min_length` filter step: skipped when absent or empty (falsy), applies
`length__gte=int(min_length)`, `ValueError` becomes a 400. -/
def stageMin (p : QueryParams) (q : List AnalyzedString) :
    Except String (List AnalyzedString) :=
  match p.min_length with
  | none => .ok q
  | some s =>
    if s == "" then .ok q
    else match pyInt s with
      | some n => .ok (q.filter (fun r => decide (n ≤ (r.length : Int))))
      | none => .error "Invalid query parameter"

/-- `max_length` filter step (`length__lte`). -/
def stageMax (p : QueryParams) (q : List AnalyzedString) :
    Except String (List AnalyzedString) :=
  match p.max_length with
  | none => .ok q
  | some s =>
    if s == "" then .ok q
    else match pyInt s with
      | some n => .ok (q.filter (fun r => decide ((r.length : Int) ≤ n)))
      | none => .error "Invalid query parameter"

/-- `word_count` filter step (exact match on `int(word_count)`). -/
def stageWC (p : QueryParams) (q : List AnalyzedString) :
    Except String (List AnalyzedString) :=
  match p.word_count with
  | none => .ok q
  | some s =>
    if s == "" then .ok q
    else match pyInt s with
      | some n => .ok (q.filter (fun r => (r.word_count : Int) == n))
      | none => .error "Invalid query parameter"

/-- `contains_character` filter step (`value__icontains`, skipped when the
parameter is absent or empty). -/
def stageContains (p : QueryParams) (q : List AnalyzedString) : List AnalyzedString :=
  match p.contains_character with
  | none => q
  | some s => if s == "" then q else q.filter (fun r => icontainsB r.value s)

/-- `StringListCreateView.get_queryset`: the five filter steps applied in
source order to the stored records, propagating the first parse error. -/
def getQueryset (p : QueryParams) (store : List AnalyzedString) :
    Except String (List AnalyzedString) :=
  match stageMin p (stagePal p store) with
  | .error e => .error e
  | .ok q2 =>
    match stageMax p q2 with
    | .error e => .error e
    | .ok q3 =>
      match stageWC p q3 with
      | .error e => .error e
      | .ok q4 => .ok (stageContains p q4)

/-- Outcome of `GET /strings`. -/
inductive ListResult where
  | ok (data : List AnalyzedString) (count : Nat)
  | badRequest (msg : String)
deriving Repr, DecidableEq

/-- `StringListCreateView.list`: serializes the queryset and reports
`count = queryset.count()`; a `ValidationError` becomes a 400. -/
def listEndpoint (p : QueryParams) (store : List AnalyzedString) : ListResult :=
  match getQueryset p store with
  | .ok q => .ok q q.length
  | .error e => .badRequest e

/-! ## The create endpoint (`StringListCreateView.create` +
`AnalyzedStringSerializer.validate_value` / `create`) -/

/-- Outcome of `POST /strings` (for a request whose `value` is present and
is a string, the cases handled before serialization). -/
inductive CreateResult where
  | created (r : AnalyzedString)
  | conflict
  | badRequest (msg : String)
deriving Repr, DecidableEq

/-- `POST /strings` on a string `value`: blank values are rejected with 400,
an existing record with the same SHA-256 hash yields 409 Conflict, otherwise
the analyzed record is stored. -/
def createEndpoint (v : String) (store : List AnalyzedString) :
    CreateResult × List AnalyzedString :=
  if isBlank v then (.badRequest "Value cannot be empty or whitespace.", store)
  else if store.any (fun r => r.sha256_hash == (analyzeString v).sha256_hash) then
    (.conflict, store)
  else (.created (mkRecord v), mkRecord v :: store)

/-! ## The detail endpoint (`StringDetailView`) -/

/-- Outcome of `GET /strings/{identifier}`. -/
inductive DetailResult where
  | found (r : AnalyzedString)
  | notFound
deriving Repr, DecidableEq

/-- Outcome of `DELETE /strings/{identifier}`. -/
inductive DeleteStatus where
  | deleted
  | notFound
deriving Repr, DecidableEq

/-- `StringDetailView.get`: first record whose `sha256_hash` equals the
identifier, else 404. -/
def detailGet (ident : String) (store : List AnalyzedString) : DetailResult :=
  match store.find? (fun r => r.sha256_hash == ident) with
  | some r => .found r
  | none => .notFound

/-- `StringDetailView.delete`: look up by `sha256_hash`; delete that row,
else 404 leaving the store unchanged. -/
def detailDelete (ident : String) (store : List AnalyzedString) :
    DeleteStatus × List AnalyzedString :=
  match store.find? (fun r => r.sha256_hash == ident) with
  | some _ => (.deleted, store.eraseP (fun r => r.sha256_hash == ident))
  | none => (.notFound, store)

/-! ## The natural-language interpreter (`NaturalLanguageFilterView.get`) -/

/-- The `filters` dictionary assembled by the interpreter. -/
structure NLFilters where
  is_palindrome : Option Bool := none
  word_count : Option Int := none
  min_length : Option Int := none
  max_length : Option Int := none
  contains_character : Option Char := none
deriving Repr, DecidableEq

/-- `re.search` for a pattern `lit(\d+)` with `lit` a literal: at each start
position, the literal followed by a maximal non-empty digit run; leftmost
match wins, trying the literal alternatives in order at each position. -/
def findAltNum (pats : List (List Char)) : List Char → Option Nat
  | [] => none
  | c :: t =>
    match pats.findSome? (fun pat =>
        if pat.isPrefixOf (c :: t) then
          let ds := ((c :: t).drop pat.length).takeWhile isAsciiDigit
          if ds.isEmpty then none else some (digitsVal ds)
        else none) with
    | some n => some n
    | none => findAltNum pats t

/-- The optional-prefix combinations of
`(?:the )?(?:letter |character )?['\"]?` in the backtracking preference
order of the regex engine (each `?` group prefers presence, alternatives
left to right). -/
def comboList : List (List Char) :=
  (["the ".toList, []].map (fun a =>
    (["letter ".toList, "character ".toList, []].map (fun b =>
      ([[Char.ofNat 39], [Char.ofNat 34], []].map (fun q =>
        a ++ b ++ q)))).flatten)).flatten

/-- Match the optional groups then capture a single `[a-z]` character. -/
def matchCombo (l : List Char) : Option Char :=
  comboList.findSome? (fun pre =>
    if pre.isPrefixOf l then
      match l.drop pre.length with
      | d :: _ => if isLowerAZ d then some d else none
      | [] => none
    else none)

/-- `re.search` for `kw(?:the )?(?:letter |character )?['\"]?([a-z])['\"]?`
with `kw` the literal `"containing "` or `"with "`. -/
def findCharAfter (kw : List Char) : List Char → Option Char
  | [] => none
  | c :: t =>
    match (if kw.isPrefixOf (c :: t) then matchCombo ((c :: t).drop kw.length) else none) with
    | some x => some x
    | none => findCharAfter kw t

/-- `re.search(r"longer than (\d+)", query_lower)`. -/
def findLongerNum (l : List Char) : Option Nat :=
  findAltNum ["longer than ".toList] l

/-- `re.search(r"shorter than (\d+)", query_lower)`. -/
def findShorterNum (l : List Char) : Option Nat :=
  findAltNum ["shorter than ".toList] l

/-- `re.search(r"(?:exactly |of length |length of )(\d+)", query_lower)`. -/
def findExactNum (l : List Char) : Option Nat :=
  findAltNum ["exactly ".toList, "of length ".toList, "length of ".toList] l

/-- Palindrome keyword rule. -/
def nlStagePal (ql : List Char) (f : NLFilters) : NLFilters :=
  if listContains "palindrome".toList ql || listContains "palindromic".toList ql then
    { f with is_palindrome := some true }
  else f

/-- Word-count keyword rule (an `if/elif` chain). -/
def nlStageWC (ql : List Char) (f : NLFilters) : NLFilters :=
  if ["single word", "one word", "1 word", "single-word"].any
      (fun p => listContains p.toList ql) then
    { f with word_count := some 1 }
  else if ["two word", "2 word", "two-word"].any (fun p => listContains p.toList ql) then
    { f with word_count := some 2 }
  else if ["three word", "3 word", "three-word"].any (fun p => listContains p.toList ql) then
    { f with word_count := some 3 }
  else f

/-- `"longer than N"` rule: `min_length = N + 1`. -/
def nlStageLonger (ql : List Char) (f : NLFilters) : NLFilters :=
  match findLongerNum ql with
  | some n => { f with min_length := some ((n : Int) + 1) }
  | none => f

/-- `"shorter than N"` rule: `max_length = N - 1`. -/
def nlStageShorter (ql : List Char) (f : NLFilters) : NLFilters :=
  match findShorterNum ql with
  | some n => { f with max_length := some ((n : Int) - 1) }
  | none => f

/-- Exact-length rule: sets both bounds to `N`. -/
def nlStageExact (ql : List Char) (f : NLFilters) : NLFilters :=
  match findExactNum ql with
  | some n => { f with min_length := some (n : Int), max_length := some (n : Int) }
  | none => f

/-- `"containing ..."` character rule. -/
def nlStageContaining (ql : List Char) (f : NLFilters) : NLFilters :=
  match findCharAfter "containing ".toList ql with
  | some c => { f with contains_character := some c }
  | none => f

/-- `"with ..."` character rule (overwrites the previous one). -/
def nlStageWith (ql : List Char) (f : NLFilters) : NLFilters :=
  match findCharAfter "with ".toList ql with
  | some c => { f with contains_character := some c }
  | none => f

/-- Special vowel handling (an `if/elif` chain, applied last). -/
def nlStageVowel (ql : List Char) (f : NLFilters) : NLFilters :=
  if ["first vowel", "vowel a", "letter a", "with a"].any
      (fun p => listContains p.toList ql) then
    { f with contains_character := some 'a' }
  else if listContains "vowel e".toList ql || listContains "letter e".toList ql then
    { f with contains_character := some 'e' }
  else if listContains "vowel i".toList ql || listContains "letter i".toList ql then
    { f with contains_character := some 'i' }
  else if listContains "vowel o".toList ql || listContains "letter o".toList ql then
    { f with contains_character := some 'o' }
  else if listContains "vowel u".toList ql || listContains "letter u".toList ql then
    { f with contains_character := some 'u' }
  else f

/-- The full rule pipeline of `NaturalLanguageFilterView.get`, in source
order, over the lowercased query. -/
def parseQuery (q : String) : NLFilters :=
  let ql := lowerList q
  nlStageVowel ql (nlStageWith ql (nlStageContaining ql (nlStageExact ql
    (nlStageShorter ql (nlStageLonger ql (nlStageWC ql (nlStagePal ql {})))))))

/-- Apply the parsed filters to the stored records, in source order. -/
def applyNLFilters (f : NLFilters) (store : List AnalyzedString) : List AnalyzedString :=
  let q1 := match f.is_palindrome with
    | some b => store.filter (fun r => r.is_palindrome == b)
    | none => store
  let q2 := match f.word_count with
    | some n => q1.filter (fun r => (r.word_count : Int) == n)
    | none => q1
  let q3 := match f.min_length with
    | some n => q2.filter (fun r => decide (n ≤ (r.length : Int)))
    | none => q2
  let q4 := match f.max_length with
    | some n => q3.filter (fun r => decide ((r.length : Int) ≤ n))
    | none => q3
  match f.contains_character with
  | some c => q4.filter (fun r => icontainsB r.value (String.mk [c]))
  | none => q4

/-- Outcome of `GET /strings/filter-by-natural-language`. -/
inductive NLResult where
  | ok (data : List AnalyzedString) (count : Nat) (filters : NLFilters)
  | badRequest (msg : String)
deriving Repr, DecidableEq

/-- `NaturalLanguageFilterView.get`: strip the query, reject a missing or
empty query with 400, otherwise parse the rules and return the filtered
records together with the resolved filter mapping. -/
def nlEndpoint (rawQuery : String) (store : List AnalyzedString) : NLResult :=
  let query := pyStrip rawQuery
  if query == "" then .badRequest "Missing required parameter: 'query'."
  else
    let f := parseQuery query
    let data := applyNLFilters f store
    .ok data data.length f

/-! ## Specification-side definitions

These state the properties the filter pipeline and the analyzer are claimed
to have; they are compared with the source embeddings by theorem. -/

/-- The palindrome conjunct of the filter criteria, per record. -/
def mpPal (p : QueryParams) (r : AnalyzedString) : Bool :=
  match p.is_palindrome with
  | none => true
  | some s =>
    if isTruthyPal s then r.is_palindrome == true
    else if isFalsyPal s then r.is_palindrome == false
    else true

/-- The `min_length` conjunct of the filter criteria, per record. -/
def mpMin (p : QueryParams) (r : AnalyzedString) : Bool :=
  match p.min_length with
  | none => true
  | some s =>
    if s == "" then true
    else match pyInt s with
      | some n => decide (n ≤ (r.length : Int))
      | none => true

/-- The `max_length` conjunct of the filter criteria, per record. -/
def mpMax (p : QueryParams) (r : AnalyzedString) : Bool :=
  match p.max_length with
  | none => true
  | some s =>
    if s == "" then true
    else match pyInt s with
      | some n => decide ((r.length : Int) ≤ n)
      | none => true

/-- The `word_count` conjunct of the filter criteria, per record. -/
def mpWC (p : QueryParams) (r : AnalyzedString) : Bool :=
  match p.word_count with
  | none => true
  | some s =>
    if s == "" then true
    else match pyInt s with
      | some n => (r.word_count : Int) == n
      | none => true

/-- The `contains_character` conjunct of the filter criteria, per record. -/
def mpContains (p : QueryParams) (r : AnalyzedString) : Bool :=
  match p.contains_character with
  | none => true
  | some s => if s == "" then true else icontainsB r.value s

/-- A record satisfies the conjunction (logical AND) of all provided filter
criteria; absent criteria impose no constraint. -/
def matchesParams (p : QueryParams) (r : AnalyzedString) : Bool :=
  mpPal p r && mpMin p r && mpMax p r && mpWC p r && mpContains p r

/-- Case-sensitive literal substring containment (what the specification
claims for `contains_character`). -/
def caseSensContains (v : String) (s : String) : Bool :=
  listContains s.toList v.toList

/-- Whitespace-delimited non-empty tokens of a character list, stated
independently of the split loop via `List.splitOnP`. -/
def tokensSpec (l : List Char) : List (List Char) :=
  (l.splitOnP isPySpace).filter (fun t => !t.isEmpty)

/-- Value stored under key `c` in an association list (0 when absent). -/
def valAt : List (Char × Nat) → Char → Nat
  | [], _ => 0
  | p :: t, c => if p.1 == c then p.2 else valAt t c

/-- Sum of the stored counts. -/
def sumVals (m : List (Char × Nat)) : Nat :=
  (m.map Prod.snd).sum

/-- A store record as created by the service: its derived fields come from
`analyze_string` of its own value, and its value passed the blank check. -/
def WFRecord (r : AnalyzedString) : Prop :=
  r = mkRecord r.value ∧ isBlank r.value = false

/-! ## Helper lemmas: the filter pipeline is a conjunction -/

theorem filter_comp {α : Type} (f g : α → Bool) (l : List α) :
    (l.filter f).filter g = l.filter (fun a => f a && g a) := by
  induction l with
  | nil => rfl
  | cons a t ih => cases hf : f a <;> cases hg : g a <;> simp [List.filter_cons, hf, hg, ih]

theorem stagePal_eq (p : QueryParams) (q : List AnalyzedString) :
    stagePal p q = q.filter (fun r => mpPal p r) := by
  unfold stagePal mpPal
  cases p.is_palindrome with
  | none => simp
  | some s => cases h1 : isTruthyPal s <;> cases h2 : isFalsyPal s <;> simp [h1, h2]

theorem stageMin_ok (p : QueryParams) (q l : List AnalyzedString)
    (h : stageMin p q = .ok l) : l = q.filter (fun r => mpMin p r) := by
  unfold stageMin at h
  cases hp : p.min_length with
  | none => simp [hp] at h; subst h; simp [mpMin, hp]
  | some s =>
    simp only [hp] at h
    cases hs : (s == "") with
    | true => simp [hs] at h; subst h; simp [mpMin, hp, hs]
    | false =>
      simp only [hs, Bool.false_eq_true, if_false] at h
      cases hn : pyInt s with
      | some n => simp [hn] at h; subst h; simp [mpMin, hp, hs, hn]
      | none => simp [hn] at h

theorem stageMax_ok (p : QueryParams) (q l : List AnalyzedString)
    (h : stageMax p q = .ok l) : l = q.filter (fun r => mpMax p r) := by
  unfold stageMax at h
  cases hp : p.max_length with
  | none => simp [hp] at h; subst h; simp [mpMax, hp]
  | some s =>
    simp only [hp] at h
    cases hs : (s == "") with
    | true => simp [hs] at h; subst h; simp [mpMax, hp, hs]
    | false =>
      simp only [hs, Bool.false_eq_true, if_false] at h
      cases hn : pyInt s with
      | some n => simp [hn] at h; subst h; simp [mpMax, hp, hs, hn]
      | none => simp [hn] at h

theorem stageWC_ok (p : QueryParams) (q l : List AnalyzedString)
    (h : stageWC p q = .ok l) : l = q.filter (fun r => mpWC p r) := by
  unfold stageWC at h
  cases hp : p.word_count with
  | none => simp [hp] at h; subst h; simp [mpWC, hp]
  | some s =>
    simp only [hp] at h
    cases hs : (s == "") with
    | true => simp [hs] at h; subst h; simp [mpWC, hp, hs]
    | false =>
      simp only [hs, Bool.false_eq_true, if_false] at h
      cases hn : pyInt s with
      | some n => simp [hn] at h; subst h; simp [mpWC, hp, hs, hn]
      | none => simp [hn] at h

theorem stageContains_eq (p : QueryParams) (q : List AnalyzedString) :
    stageContains p q = q.filter (fun r => mpContains p r) := by
  unfold stageContains mpContains
  cases p.contains_character with
  | none => simp
  | some s => cases hs : (s == "") <;> simp [hs]

theorem getQueryset_ok (p : QueryParams) (store l : List AnalyzedString)
    (h : getQueryset p store = .ok l) :
    l = store.filter (fun r => matchesParams p r) := by
  unfold getQueryset at h
  cases h2 : stageMin p (stagePal p store) with
  | error e => rw [h2] at h; cases h
  | ok q2 =>
    rw [h2] at h; dsimp only at h
    cases h3 : stageMax p q2 with
    | error e => rw [h3] at h; cases h
    | ok q3 =>
      rw [h3] at h; dsimp only at h
      cases h4 : stageWC p q3 with
      | error e => rw [h4] at h; cases h
      | ok q4 =>
        rw [h4] at h; dsimp only at h
        cases h
        rw [stageContains_eq, stageWC_ok p q3 q4 h4, stageMax_ok p q2 q3 h3,
          stageMin_ok p (stagePal p store) q2 h2, stagePal_eq,
          filter_comp, filter_comp, filter_comp, filter_comp]
        simp only [matchesParams, Bool.and_assoc]

/-! ## Claim C1 -/

/-- C1: for every set of provided filter criteria and every collection of
stored records, a successful `GET /strings` returns exactly the stored
records satisfying the conjunction (logical AND) of all provided
predicates, and the returned count equals the number of such records;
absent criteria impose no constraint. -/
theorem C1_list_is_conjunction (p : QueryParams) (store data : List AnalyzedString)
    (n : Nat) (h : listEndpoint p store = .ok data n) :
    data = store.filter (fun r => matchesParams p r) ∧ n = data.length := by
  unfold listEndpoint at h
  cases hq : getQueryset p store with
  | error e => rw [hq] at h; cases h
  | ok q => rw [hq] at h; cases h; exact ⟨getQueryset_ok p store _ hq, rfl⟩

/-- C1 witness: the spec's example — store `"racecar"` and `"hello world"`,
query `is_palindrome=true&word_count=1&min_length=5`. -/
theorem C1_witness :
    [mkRecord "racecar"] =
      ([mkRecord "racecar", mkRecord "hello world"]).filter
        (fun r => matchesParams ⟨some "true", some "5", none, some "1", none⟩ r) ∧
    1 = [mkRecord "racecar"].length :=
  C1_list_is_conjunction ⟨some "true", some "5", none, some "1", none⟩
    [mkRecord "racecar", mkRecord "hello world"] [mkRecord "racecar"] 1 rfl

/-! ## Claim C5 -/

/-- C5 counterexample: the claim says `contains_character` matching is
case-sensitive, but the code uses `value__icontains`: the record with value
`"A"` is returned for `contains_character=a`, although `"A"` does not
contain `"a"` as a case-sensitive substring. -/
theorem C5_counterexample :
    getQueryset ⟨none, none, none, none, some "a"⟩ [mkRecord "A"] = .ok [mkRecord "A"] ∧
    caseSensContains (mkRecord "A").value "a" = false :=
  ⟨rfl, rfl⟩

/-- C5 amended: a stored record satisfies the `contains_character` criterion
iff its value contains the character as a case-insensitive literal
substring (both sides lowercased; still no regex interpretation). -/
theorem C5_contains_is_case_insensitive (c : Char) (store : List AnalyzedString)
    (r : AnalyzedString) :
    getQueryset ⟨none, none, none, none, some (String.mk [c])⟩ store =
      .ok (store.filter (fun x => icontainsB x.value (String.mk [c]))) ∧
    (r ∈ store.filter (fun x => icontainsB x.value (String.mk [c])) ↔
      r ∈ store ∧ listContains ([c].map pyLower) (r.value.toList.map pyLower) = true) := by
  constructor
  · have hne : (String.mk [c] == "") = false := rfl
    unfold getQueryset stagePal stageMin stageMax stageWC stageContains
    simp [hne, icontainsB]
  · simp [List.mem_filter, icontainsB]

/-! ## Claim C3 (code bug) -/

/-- C3: the specification requires that a non-empty query on which no rule
fires either yields an empty result set with an empty criteria mapping or
fails with 400. The code resolves the empty criteria mapping but then
applies no filter at all, returning **every** stored record: on query
`"zzz qqq"` with one stored record the endpoint answers 200 with that
record and count 1, which is neither an empty result set nor an error. -/
theorem C3_unmatched_query_returns_all :
    parseQuery "zzz qqq" = {} ∧
    nlEndpoint "zzz qqq" [mkRecord "racecar"] = .ok [mkRecord "racecar"] 1 {} ∧
    (1 : Nat) ≠ 0 :=
  ⟨rfl, rfl, by decide⟩

/-! ## Claim C4 -/

/-- C4: `is_palindrome` is computed by lowercasing, removing every
character outside `[a-zA-Z0-9]`, and comparing the normalization to its own
reversal; an empty normalization is not a palindrome. The spec's three
examples hold. -/
theorem C4_palindrome_normalization :
    (∀ s : String, (analyzeString s).is_palindrome = true ↔
      (normalizePal s.toList ≠ [] ∧ normalizePal s.toList = (normalizePal s.toList).reverse))
    ∧ (analyzeString "racecar").is_palindrome = true
    ∧ (analyzeString "hello world").is_palindrome = false
    ∧ (analyzeString "A man, a plan, a canal: Panama").is_palindrome = true := by
  refine ⟨fun s => ?_, by decide, by decide, by decide⟩
  show (if (normalizePal s.toList).isEmpty then false
      else normalizePal s.toList == (normalizePal s.toList).reverse) = true ↔ _
  by_cases hn : normalizePal s.toList = [] <;> simp [hn, List.isEmpty_iff]

/-! ## Claim C6 -/

set_option maxRecDepth 100000 in
/-- C6: the stored hash is the hex-encoded SHA-256 digest of the UTF-8
encoding of the unmodified value (concretely: `"racecar"` maps to its
well-known digest, and a leading space changes the digest, so no trimming
happens); hashing is deterministic; and the serializer exposes exactly this
hash as the record's public identifier `id`. The standard vector
`sha256("abc")` pins down the hash embedding itself. -/
theorem C6_hash_is_sha256_of_utf8 :
    (∀ s : String, (analyzeString s).sha256_hash = sha256Hex (utf8Bytes s.toList))
    ∧ (∀ s t : String, s = t →
        (analyzeString s).sha256_hash = (analyzeString t).sha256_hash)
    ∧ (∀ r : AnalyzedString, (serializeRecord r).id = r.sha256_hash)
    ∧ (analyzeString "racecar").sha256_hash =
        "e00f9ef51a95f6e854862eed28dc0f1a68f154d9f75ddd841ab00de6ede9209b"
    ∧ (analyzeString " racecar").sha256_hash ≠ (analyzeString "racecar").sha256_hash
    ∧ sha256Hex (utf8Bytes "abc".toList) =
        "ba7816bf8f01cfea414140de5dae2223b00361a396177a9cb410ff61f20015ad" :=
  ⟨fun _ => rfl, fun _ _ h => by rw [h], fun _ => rfl, by decide, by decide, by decide⟩

/-- C6 witness: determinism applied at the concrete input `"abc"`. -/
theorem C6_witness :
    (analyzeString "abc").sha256_hash = (analyzeString "abc").sha256_hash :=
  C6_hash_is_sha256_of_utf8.2.1 "abc" "abc" rfl

/-! ## Claim C7 -/

/-- C7: re-creating a value already present in a well-formed store fails
with 409 Conflict and leaves the store unchanged — never a silent
duplicate. -/
theorem C7_duplicate_is_conflict (v : String) (store : List AnalyzedString)
    (hwf : ∀ r ∈ store, WFRecord r) (hex : ∃ r ∈ store, r.value = v) :
    createEndpoint v store = (.conflict, store) := by
  obtain ⟨r, hr, hv⟩ := hex
  have hwfr := hwf r hr
  have hb : isBlank v = false := hv ▸ hwfr.2
  have hhash : r.sha256_hash = (analyzeString v).sha256_hash := by
    have h1 : r.sha256_hash = (analyzeString r.value).sha256_hash := by
      conv_lhs => rw [hwfr.1]
      rfl
    rw [h1, hv]
  have hany : store.any (fun x => x.sha256_hash == (analyzeString v).sha256_hash) = true :=
    List.any_eq_true.mpr ⟨r, hr, by simp [hhash]⟩
  unfold createEndpoint
  rw [hb]
  simp [hany]

/-- C7 witness: re-inserting `"racecar"` into the one-record store. -/
theorem C7_witness :
    createEndpoint "racecar" [mkRecord "racecar"] = (.conflict, [mkRecord "racecar"]) :=
  C7_duplicate_is_conflict "racecar" [mkRecord "racecar"]
    (by intro r hr; simp at hr; subst hr; exact ⟨rfl, rfl⟩)
    ⟨mkRecord "racecar", by simp, rfl⟩

/-! ## Claim C8 -/

/-- C8: detail GET answers 200 with a stored record whose content hash
equals the identifier when one exists and 404 otherwise; detail DELETE
removes exactly that record and succeeds when one exists, and answers 404
leaving the store unchanged when none does. -/
theorem C8_detail_get_delete (i : String) (store : List AnalyzedString) :
    ((∃ r ∈ store, r.sha256_hash = i) →
      ∃ r, detailGet i store = .found r ∧ r ∈ store ∧ r.sha256_hash = i)
    ∧ ((∀ r ∈ store, r.sha256_hash ≠ i) → detailGet i store = .notFound)
    ∧ ((∃ r ∈ store, r.sha256_hash = i) →
      ∃ r pre post, store = pre ++ r :: post ∧ r.sha256_hash = i ∧
        detailDelete i store = (.deleted, pre ++ post))
    ∧ ((∀ r ∈ store, r.sha256_hash ≠ i) → detailDelete i store = (.notFound, store)) := by
  refine ⟨?_, ?_, ?_, ?_⟩
  · rintro ⟨r, hr, hi⟩
    have hsome : (store.find? (fun x => x.sha256_hash == i)).isSome = true :=
      List.find?_isSome.mpr ⟨r, hr, by simp [hi]⟩
    obtain ⟨r', hr'⟩ := Option.isSome_iff_exists.mp hsome
    refine ⟨r', ?_, List.mem_of_find?_eq_some hr', by simpa using List.find?_some hr'⟩
    unfold detailGet
    rw [hr']
  · intro hall
    have hnone : store.find? (fun x => x.sha256_hash == i) = none :=
      List.find?_eq_none.mpr (fun x hx => by simp [hall x hx])
    unfold detailGet
    rw [hnone]
  · rintro ⟨r, hr, hi⟩
    obtain ⟨a, pre, post, _, hpa, hdecomp, herase⟩ :=
      List.exists_of_eraseP (p := fun x => x.sha256_hash == i) hr (by simp [hi])
    have hsome : (store.find? (fun x => x.sha256_hash == i)).isSome = true :=
      List.find?_isSome.mpr ⟨r, hr, by simp [hi]⟩
    obtain ⟨r', hr'⟩ := Option.isSome_iff_exists.mp hsome
    refine ⟨a, pre, post, hdecomp, by simpa using hpa, ?_⟩
    unfold detailDelete
    rw [hr', herase]
  · intro hall
    have hnone : store.find? (fun x => x.sha256_hash == i) = none :=
      List.find?_eq_none.mpr (fun x hx => by simp [hall x hx])
    unfold detailDelete
    rw [hnone]

set_option maxRecDepth 100000 in
/-- C8 witness: look up and delete `"racecar"` by its content hash in the
one-record store. -/
theorem C8_witness :
    (∃ r, detailGet "e00f9ef51a95f6e854862eed28dc0f1a68f154d9f75ddd841ab00de6ede9209b"
        [mkRecord "racecar"] = .found r ∧ r ∈ [mkRecord "racecar"] ∧
        r.sha256_hash = "e00f9ef51a95f6e854862eed28dc0f1a68f154d9f75ddd841ab00de6ede9209b")
    ∧ detailGet "0000" [mkRecord "racecar"] = .notFound :=
  ⟨(C8_detail_get_delete
      "e00f9ef51a95f6e854862eed28dc0f1a68f154d9f75ddd841ab00de6ede9209b"
      [mkRecord "racecar"]).1 ⟨mkRecord "racecar", by simp, by decide⟩,
   (C8_detail_get_delete "0000" [mkRecord "racecar"]).2.1
     (by intro r hr; simp at hr; subst hr; decide)⟩

/-! ## Helper lemmas: length bounds through the NL rule pipeline -/

theorem nlStagePal_minL (ql : List Char) (f : NLFilters) :
    (nlStagePal ql f).min_length = f.min_length := by
  unfold nlStagePal; split <;> rfl

theorem nlStagePal_maxL (ql : List Char) (f : NLFilters) :
    (nlStagePal ql f).max_length = f.max_length := by
  unfold nlStagePal; split <;> rfl

theorem nlStageWC_minL (ql : List Char) (f : NLFilters) :
    (nlStageWC ql f).min_length = f.min_length := by
  unfold nlStageWC
  repeat' split
  all_goals rfl

theorem nlStageWC_maxL (ql : List Char) (f : NLFilters) :
    (nlStageWC ql f).max_length = f.max_length := by
  unfold nlStageWC
  repeat' split
  all_goals rfl

theorem nlStageLonger_minL (ql : List Char) (f : NLFilters) :
    (nlStageLonger ql f).min_length =
      (match findLongerNum ql with
       | some n => some ((n : Int) + 1)
       | none => f.min_length) := by
  unfold nlStageLonger; split <;> rfl

theorem nlStageLonger_maxL (ql : List Char) (f : NLFilters) :
    (nlStageLonger ql f).max_length = f.max_length := by
  unfold nlStageLonger; split <;> rfl

theorem nlStageShorter_minL (ql : List Char) (f : NLFilters) :
    (nlStageShorter ql f).min_length = f.min_length := by
  unfold nlStageShorter; split <;> rfl

theorem nlStageShorter_maxL (ql : List Char) (f : NLFilters) :
    (nlStageShorter ql f).max_length =
      (match findShorterNum ql with
       | some n => some ((n : Int) - 1)
       | none => f.max_length) := by
  unfold nlStageShorter; split <;> rfl

theorem nlStageExact_minL (ql : List Char) (f : NLFilters) :
    (nlStageExact ql f).min_length =
      (match findExactNum ql with
       | some n => some (n : Int)
       | none => f.min_length) := by
  unfold nlStageExact; split <;> rfl

theorem nlStageExact_maxL (ql : List Char) (f : NLFilters) :
    (nlStageExact ql f).max_length =
      (match findExactNum ql with
       | some n => some (n : Int)
       | none => f.max_length) := by
  unfold nlStageExact; split <;> rfl

theorem nlStageContaining_minL (ql : List Char) (f : NLFilters) :
    (nlStageContaining ql f).min_length = f.min_length := by
  unfold nlStageContaining; split <;> rfl

theorem nlStageContaining_maxL (ql : List Char) (f : NLFilters) :
    (nlStageContaining ql f).max_length = f.max_length := by
  unfold nlStageContaining; split <;> rfl

theorem nlStageWith_minL (ql : List Char) (f : NLFilters) :
    (nlStageWith ql f).min_length = f.min_length := by
  unfold nlStageWith; split <;> rfl

theorem nlStageWith_maxL (ql : List Char) (f : NLFilters) :
    (nlStageWith ql f).max_length = f.max_length := by
  unfold nlStageWith; split <;> rfl

theorem nlStageVowel_minL (ql : List Char) (f : NLFilters) :
    (nlStageVowel ql f).min_length = f.min_length := by
  unfold nlStageVowel
  repeat' split
  all_goals rfl

theorem nlStageVowel_maxL (ql : List Char) (f : NLFilters) :
    (nlStageVowel ql f).max_length = f.max_length := by
  unfold nlStageVowel
  repeat' split
  all_goals rfl

/-- The resolved `min_length`: the exact-length rule, applied after the
`longer than` rule, overwrites its bound. -/
theorem parseQuery_minL (q : String) :
    (parseQuery q).min_length =
      (match findExactNum (lowerList q) with
       | some n => some (n : Int)
       | none =>
         match findLongerNum (lowerList q) with
         | some n => some ((n : Int) + 1)
         | none => none) := by
  simp only [parseQuery]
  rw [nlStageVowel_minL, nlStageWith_minL, nlStageContaining_minL, nlStageExact_minL]
  cases findExactNum (lowerList q) with
  | some n => rfl
  | none =>
    rw [nlStageShorter_minL, nlStageLonger_minL]
    cases findLongerNum (lowerList q) with
    | some n => rfl
    | none => rw [nlStageWC_minL, nlStagePal_minL]

/-- The resolved `max_length`: the exact-length rule, applied after the
`shorter than` rule, overwrites its bound. -/
theorem parseQuery_maxL (q : String) :
    (parseQuery q).max_length =
      (match findExactNum (lowerList q) with
       | some n => some (n : Int)
       | none =>
         match findShorterNum (lowerList q) with
         | some n => some ((n : Int) - 1)
         | none => none) := by
  simp only [parseQuery]
  rw [nlStageVowel_maxL, nlStageWith_maxL, nlStageContaining_maxL, nlStageExact_maxL]
  cases findExactNum (lowerList q) with
  | some n => rfl
  | none =>
    rw [nlStageShorter_maxL]
    cases findShorterNum (lowerList q) with
    | some n => rfl
    | none => rw [nlStageLonger_maxL, nlStageWC_maxL, nlStagePal_maxL]

/-! ## Claim C2 -/

/-- C2 counterexample: the claim states unconditionally that a query
matching `"longer than N"` yields `min_length = N + 1`; but the exact-length
rule runs later and overwrites the bound, so
`"longer than 5 of length 3"` matches `"longer than 5"` yet resolves
`min_length = 3`, not `6`. -/
theorem C2_counterexample :
    findLongerNum (lowerList "longer than 5 of length 3") = some 5 ∧
    (parseQuery "longer than 5 of length 3").min_length = some 3 ∧
    (parseQuery "longer than 5 of length 3").min_length ≠ some ((5 : Int) + 1) :=
  ⟨rfl, rfl, by decide⟩

/-- C2 amended: the length rules hold with the source's overwrite order —
`"longer than N"` gives `min_length = N + 1` and `"shorter than N"` gives
`max_length = N - 1` unless an exact-length phrase
(`"exactly N"`, `"of length N"`, `"length of N"`) also matches, in which
case both bounds are set to `N`; in particular
`"strings longer than 5 characters"` yields `min_length = 6`. -/
theorem C2_length_rules :
    (∀ (q : String) (n : Nat), findLongerNum (lowerList q) = some n →
      findExactNum (lowerList q) = none →
      (parseQuery q).min_length = some ((n : Int) + 1))
    ∧ (∀ (q : String) (n : Nat), findShorterNum (lowerList q) = some n →
      findExactNum (lowerList q) = none →
      (parseQuery q).max_length = some ((n : Int) - 1))
    ∧ (∀ (q : String) (n : Nat), findExactNum (lowerList q) = some n →
      (parseQuery q).min_length = some (n : Int) ∧
        (parseQuery q).max_length = some (n : Int))
    ∧ (parseQuery "strings longer than 5 characters").min_length = some 6 := by
  refine ⟨?_, ?_, ?_, rfl⟩
  · intro q n hl he; rw [parseQuery_minL, he, hl]
  · intro q n hs he; rw [parseQuery_maxL, he, hs]
  · intro q n he; rw [parseQuery_minL, parseQuery_maxL, he]; exact ⟨rfl, rfl⟩

/-- C2 witness: the amended rules applied to the spec's example query. -/
theorem C2_witness :
    (parseQuery "strings longer than 5 characters").min_length = some ((5 : Int) + 1) :=
  C2_length_rules.1 "strings longer than 5 characters" 5 rfl rfl

/-! ## Helper lemmas: the split loop agrees with `splitOnP` -/

theorem modifyHead_self {A : Type} (L : List (List A)) :
    L.modifyHead (fun x => x) = L := by
  cases L <;> rfl

theorem modifyHead_revnil (L : List (List Char)) :
    L.modifyHead (fun x => List.reverse [] ++ x) = L := by
  cases L <;> rfl

theorem modifyHead_cons_eq {A : Type} (f : A → A) (a : A) (l : List A) :
    (a :: l).modifyHead f = f a :: l := rfl

theorem pySplitGo_eq (l : List Char) : ∀ cur : List Char,
    pySplitGo l cur =
      ((l.splitOnP isPySpace).modifyHead (fun t => cur.reverse ++ t)).filter
        (fun t => !t.isEmpty) := by
  induction l with
  | nil =>
    intro cur
    cases cur with
    | nil => simp [pySplitGo, List.splitOnP_nil]
    | cons a t =>
      have hne : ((t.reverse ++ [a]) : List Char).isEmpty = false := by
        simp [List.isEmpty_iff]
      simp [pySplitGo, List.splitOnP_nil, List.filter, hne]
  | cons c t ih =>
    intro cur
    rw [List.splitOnP_cons]
    cases hsp : isPySpace c with
    | true =>
      simp only [pySplitGo, hsp, if_true]
      rw [ih []]
      cases hc : cur.isEmpty with
      | true =>
        have hcnil : cur = [] := List.isEmpty_iff.mp hc
        subst hcnil
        simp [modifyHead_revnil, modifyHead_self, modifyHead_cons_eq, List.filter]
      | false =>
        have hcne : cur ≠ [] := by
          intro h0; rw [h0] at hc; cases hc
        have hrne : (cur.reverse).isEmpty = false := by
          simp [List.isEmpty_iff, hcne]
        simp [modifyHead_revnil, modifyHead_self, modifyHead_cons_eq, List.filter, hrne]
    | false =>
      simp only [pySplitGo, hsp, Bool.false_eq_true, if_false]
      rw [ih (c :: cur)]
      rcases hsplit : List.splitOnP isPySpace t with _ | ⟨s, ss⟩
      · exact absurd hsplit (List.splitOnP_ne_nil _ t)
      · simp [List.modifyHead, List.reverse_cons, List.append_assoc]

/-! ## Claim C9 -/

/-- C9: `word_count` equals the number of whitespace-delimited non-empty
tokens (stated independently via `List.splitOnP`), and the spec's two
examples hold. -/
theorem C9_word_count :
    (∀ s : String, (analyzeString s).word_count = (tokensSpec s.toList).length)
    ∧ (analyzeString "hello world").word_count = 2
    ∧ (analyzeString "").word_count = 0 := by
  refine ⟨fun s => ?_, rfl, rfl⟩
  show (pySplit s.toList).length = _
  unfold pySplit tokensSpec
  rw [pySplitGo_eq]
  have : (fun t : List Char => List.reverse [] ++ t) = fun t => t := by
    funext t; simp
  rw [this, modifyHead_self]

/-! ## Helper lemmas: the frequency map -/

theorem bumpChar_nil (c : Char) : bumpChar [] c = [(c, 1)] := rfl

theorem bumpChar_eq_map_of_any (m : List (Char × Nat)) (c : Char)
    (ha : m.any (fun p => p.1 == c) = true) :
    bumpChar m c = m.map (fun q => if q.1 == c then (q.1, q.2 + 1) else q) := by
  unfold bumpChar; rw [if_pos ha]

theorem bumpChar_eq_append_of_not_any (m : List (Char × Nat)) (c : Char)
    (ha : m.any (fun p => p.1 == c) = false) :
    bumpChar m c = m ++ [(c, 1)] := by
  unfold bumpChar; simp [ha]

theorem bumpChar_cons_miss (p : Char × Nat) (t : List (Char × Nat)) (c : Char)
    (hp : (p.1 == c) = false) :
    bumpChar (p :: t) c = p :: bumpChar t c := by
  unfold bumpChar
  have hp2 : p.1 ≠ c := by simpa using hp
  simp only [List.any_cons, hp, Bool.false_or]
  cases ha : t.any (fun q => q.1 == c) <;> simp [hp, hp2]

theorem map_incIf_eq_self (t : List (Char × Nat)) (c : Char)
    (hnot : ∀ q ∈ t, (q.1 == c) = false) :
    t.map (fun q => if q.1 == c then (q.1, q.2 + 1) else q) = t := by
  induction t with
  | nil => rfl
  | cons q r ih =>
    simp only [List.map_cons]
    rw [if_neg (by simp [hnot q (by simp)]), ih (fun x hx => hnot x (by simp [hx]))]

theorem keys_map_incIf (l : List (Char × Nat)) (c : Char) :
    (l.map (fun q => if q.1 == c then (q.1, q.2 + 1) else q)).map Prod.fst =
      l.map Prod.fst := by
  induction l with
  | nil => rfl
  | cons q r ih =>
    have h1 : (if (q.1 == c) = true then (q.1, q.2 + 1) else q).1 = q.1 := by
      split <;> rfl
    simp only [List.map_cons, h1, ih]

theorem mem_keys_bumpChar (m : List (Char × Nat)) (c a : Char) :
    (a ∈ (bumpChar m c).map Prod.fst) ↔ (a ∈ m.map Prod.fst ∨ a = c) := by
  cases ha : m.any (fun p => p.1 == c) with
  | true =>
    rw [bumpChar_eq_map_of_any m c ha, keys_map_incIf]
    obtain ⟨p, hpm, hpc⟩ := List.any_eq_true.mp ha
    have hc : c ∈ m.map Prod.fst := List.mem_map.mpr ⟨p, hpm, by simpa using hpc⟩
    constructor
    · exact Or.inl
    · rintro (h | rfl)
      · exact h
      · exact hc
  | false =>
    rw [bumpChar_eq_append_of_not_any m c ha]
    simp

theorem mem_keys_foldl (l : List Char) : ∀ (m : List (Char × Nat)) (a : Char),
    (a ∈ (l.foldl bumpChar m).map Prod.fst) ↔ (a ∈ m.map Prod.fst ∨ a ∈ l) := by
  induction l with
  | nil => intro m a; simp
  | cons c t ih =>
    intro m a
    simp only [List.foldl_cons]
    rw [ih, mem_keys_bumpChar]
    simp [or_assoc]

theorem nodupKeys_bumpChar (m : List (Char × Nat)) (c : Char)
    (h : (m.map Prod.fst).Nodup) : ((bumpChar m c).map Prod.fst).Nodup := by
  cases ha : m.any (fun p => p.1 == c) with
  | true => rw [bumpChar_eq_map_of_any m c ha, keys_map_incIf]; exact h
  | false =>
    rw [bumpChar_eq_append_of_not_any m c ha]
    have hcn : c ∉ m.map Prod.fst := by
      intro hc
      obtain ⟨p, hpm, hpc⟩ := List.mem_map.mp hc
      have : m.any (fun p => p.1 == c) = true :=
        List.any_eq_true.mpr ⟨p, hpm, by simp [hpc]⟩
      rw [this] at ha
      cases ha
    simp [List.nodup_append, h, hcn]

theorem nodupKeys_foldl (l : List Char) : ∀ m : List (Char × Nat),
    (m.map Prod.fst).Nodup → (((l.foldl bumpChar m)).map Prod.fst).Nodup := by
  induction l with
  | nil => intro m h; exact h
  | cons c t ih =>
    intro m h
    simp only [List.foldl_cons]
    exact ih (bumpChar m c) (nodupKeys_bumpChar m c h)

theorem nodupKeys_freqMap (l : List Char) : ((freqMap l).map Prod.fst).Nodup := by
  unfold freqMap
  exact nodupKeys_foldl l [] (by simp)

theorem mem_keys_freqMap (l : List Char) (a : Char) :
    (a ∈ (freqMap l).map Prod.fst) ↔ a ∈ l := by
  unfold freqMap
  rw [mem_keys_foldl]
  simp

theorem valAt_bump_self (m : List (Char × Nat)) (c : Char) :
    valAt (bumpChar m c) c = valAt m c + 1 := by
  induction m with
  | nil => simp [bumpChar_nil, valAt]
  | cons p t ih =>
    cases hp : (p.1 == c) with
    | true =>
      have ha : (p :: t).any (fun q => q.1 == c) = true := by
        simp [List.any_cons, hp]
      rw [bumpChar_eq_map_of_any _ _ ha]
      simp [valAt, hp]
    | false =>
      rw [bumpChar_cons_miss _ _ _ hp]
      simp [valAt, hp, ih]

theorem valAt_map_incIf (t : List (Char × Nat)) (a c : Char)
    (hne : (a == c) = false) :
    valAt (t.map (fun q => if q.1 == a then (q.1, q.2 + 1) else q)) c = valAt t c := by
  induction t with
  | nil => rfl
  | cons q r ih =>
    simp only [List.map_cons]
    cases hq : (q.1 == a) with
    | true =>
      have hqa : q.1 = a := by simpa using hq
      have hqc : (q.1 == c) = false := by rw [hqa]; exact hne
      rw [if_pos rfl]
      simp only [valAt, hqc, Bool.false_eq_true, if_false]
      exact ih
    | false =>
      rw [if_neg (by simp)]
      simp only [valAt]
      cases hqc : (q.1 == c) with
      | true => simp [hqc]
      | false => simp only [hqc, Bool.false_eq_true, if_false]; exact ih

theorem valAt_bump_ne (m : List (Char × Nat)) (a c : Char)
    (hne : (a == c) = false) : valAt (bumpChar m a) c = valAt m c := by
  induction m with
  | nil => simp [bumpChar_nil, valAt, hne]
  | cons p t ih =>
    cases hp : (p.1 == a) with
    | true =>
      have ha : (p :: t).any (fun q => q.1 == a) = true := by
        simp [List.any_cons, hp]
      have hpa : p.1 = a := by simpa using hp
      have hpc : (p.1 == c) = false := by rw [hpa]; exact hne
      rw [bumpChar_eq_map_of_any _ _ ha]
      simp only [List.map_cons]
      rw [if_pos hp]
      simp only [valAt, hpc, Bool.false_eq_true, if_false]
      exact valAt_map_incIf t a c hne
    | false =>
      rw [bumpChar_cons_miss _ _ _ hp]
      cases hpc : (p.1 == c) <;> simp [valAt, hpc, ih]

theorem valAt_foldl (l : List Char) : ∀ (m : List (Char × Nat)) (c : Char),
    valAt (l.foldl bumpChar m) c = valAt m c + l.count c := by
  induction l with
  | nil => intro m c; simp
  | cons a t ih =>
    intro m c
    simp only [List.foldl_cons]
    rw [ih]
    cases hac : (a == c) with
    | true =>
      have : a = c := by simpa using hac
      subst this
      rw [valAt_bump_self]
      simp [List.count_cons]
      omega
    | false =>
      rw [valAt_bump_ne m a c hac]
      simp [List.count_cons, hac]

theorem valAt_freqMap (l : List Char) (c : Char) :
    valAt (freqMap l) c = l.count c := by
  unfold freqMap
  rw [valAt_foldl]
  simp [valAt]

theorem valAt_of_mem_nodup (m : List (Char × Nat)) (p : Char × Nat)
    (hnd : (m.map Prod.fst).Nodup) (hp : p ∈ m) : valAt m p.1 = p.2 := by
  induction m with
  | nil => cases hp
  | cons q t ih =>
    rcases List.mem_cons.mp hp with rfl | hpt
    · simp [valAt]
    · cases hqt : (q.1 == p.1) with
      | true =>
        have hq1 : q.1 = p.1 := by simpa using hqt
        have hkeys : p.1 ∈ t.map Prod.fst := List.mem_map.mpr ⟨p, hpt, rfl⟩
        have hnot : q.1 ∉ t.map Prod.fst := (List.nodup_cons.mp (by simpa using hnd)).1
        exact absurd hkeys (hq1 ▸ hnot)
      | false =>
        simp only [valAt, hqt, Bool.false_eq_true, if_false]
        exact ih (List.nodup_cons.mp (by simpa using hnd)).2 hpt

theorem sumVals_bump_of_any (m : List (Char × Nat)) (c : Char)
    (hnd : (m.map Prod.fst).Nodup) (ha : m.any (fun p => p.1 == c) = true) :
    sumVals (bumpChar m c) = sumVals m + 1 := by
  induction m with
  | nil => cases ha
  | cons p t ih =>
    cases hp : (p.1 == c) with
    | true =>
      have hpa : p.1 = c := by simpa using hp
      rw [bumpChar_eq_map_of_any _ _ (by simp [List.any_cons, hp])]
      have hnot : ∀ q ∈ t, (q.1 == c) = false := by
        intro q hq
        cases hqc : (q.1 == c) with
        | false => rfl
        | true =>
          have hq1 : q.1 = c := by simpa using hqc
          have hkeys : c ∈ t.map Prod.fst := List.mem_map.mpr ⟨q, hq, hq1⟩
          have hnot2 : p.1 ∉ t.map Prod.fst := (List.nodup_cons.mp (by simpa using hnd)).1
          exact absurd hkeys (hpa ▸ hnot2)
      rw [List.map_cons, map_incIf_eq_self t c hnot]
      simp only [hp, if_true, sumVals, List.map_cons, List.sum_cons]
      omega
    | false =>
      have hat : t.any (fun q => q.1 == c) = true := by
        have h2 := ha
        rw [List.any_cons, hp, Bool.false_or] at h2
        exact h2
      rw [bumpChar_cons_miss _ _ _ hp]
      have hndt : (t.map Prod.fst).Nodup := (List.nodup_cons.mp (by simpa using hnd)).2
      simp only [sumVals, List.map_cons, List.sum_cons] at ih ⊢
      rw [ih hndt hat]
      omega

theorem sumVals_foldl (l : List Char) : ∀ m : List (Char × Nat),
    (m.map Prod.fst).Nodup →
    sumVals (l.foldl bumpChar m) = sumVals m + l.length := by
  induction l with
  | nil => intro m _; simp
  | cons c t ih =>
    intro m hnd
    simp only [List.foldl_cons, List.length_cons]
    rw [ih (bumpChar m c) (nodupKeys_bumpChar m c hnd)]
    cases ha : m.any (fun p => p.1 == c) with
    | true => rw [sumVals_bump_of_any m c hnd ha]; omega
    | false =>
      rw [bumpChar_eq_append_of_not_any m c ha]
      simp only [sumVals, List.map_append, List.sum_append, List.map_cons,
        List.sum_cons, List.map_nil, List.sum_nil]
      omega

theorem sumVals_freqMap (l : List Char) : sumVals (freqMap l) = l.length := by
  unfold freqMap
  rw [sumVals_foldl l [] (by simp)]
  simp [sumVals]

theorem length_freqMap_eq_dedup (l : List Char) :
    (freqMap l).length = l.dedup.length := by
  have hperm : ((freqMap l).map Prod.fst).Perm l.dedup :=
    (List.perm_ext_iff_of_nodup (nodupKeys_freqMap l) (List.nodup_dedup l)).mpr
      (fun a => by rw [mem_keys_freqMap, List.mem_dedup])
  calc (freqMap l).length = ((freqMap l).map Prod.fst).length := by simp
    _ = l.dedup.length := hperm.length_eq

/-! ## Claim C10 -/

/-- C10: the character frequency map of an analyzed string has exactly the
distinct characters of the string as keys, every stored count is positive
and equals that character's number of occurrences, the counts sum to the
string's `length`, and `unique_characters` equals the number of keys. -/
theorem C10_frequency_map_invariants (s : String) :
    (∀ c : Char, (∃ n, (c, n) ∈ (analyzeString s).character_frequency_map) ↔ c ∈ s.toList)
    ∧ (∀ p ∈ (analyzeString s).character_frequency_map,
        0 < p.2 ∧ p.2 = s.toList.count p.1)
    ∧ sumVals (analyzeString s).character_frequency_map = (analyzeString s).length
    ∧ (analyzeString s).unique_characters =
        (analyzeString s).character_frequency_map.length := by
  have hmap : (analyzeString s).character_frequency_map = freqMap s.toList := rfl
  have hlen : (analyzeString s).length = s.toList.length := rfl
  have huniq : (analyzeString s).unique_characters = s.toList.dedup.length := rfl
  refine ⟨fun c => ?_, fun p hp => ?_, ?_, ?_⟩
  · rw [hmap]
    constructor
    · rintro ⟨n, hmem⟩
      have hkey : c ∈ (freqMap s.toList).map Prod.fst :=
        List.mem_map.mpr ⟨(c, n), hmem, rfl⟩
      exact (mem_keys_freqMap s.toList c).mp hkey
    · intro hc
      have hkey : c ∈ (freqMap s.toList).map Prod.fst :=
        (mem_keys_freqMap s.toList c).mpr hc
      obtain ⟨⟨a, b⟩, hpm, rfl⟩ := List.mem_map.mp hkey
      exact ⟨b, hpm⟩
  · rw [hmap] at hp
    have hval : valAt (freqMap s.toList) p.1 = p.2 :=
      valAt_of_mem_nodup _ p (nodupKeys_freqMap s.toList) hp
    have hcount : p.2 = s.toList.count p.1 := by
      rw [← hval, valAt_freqMap]
    refine ⟨?_, hcount⟩
    have hkey : p.1 ∈ (freqMap s.toList).map Prod.fst := List.mem_map.mpr ⟨p, hp, rfl⟩
    have hmem : p.1 ∈ s.toList := (mem_keys_freqMap s.toList p.1).mp hkey
    rw [hcount]
    exact List.count_pos_iff.mpr hmem
  · rw [hmap, hlen]
    exact sumVals_freqMap s.toList
  · rw [hmap, huniq]
    exact (length_freqMap_eq_dedup s.toList).symm

/-- C10 witness: the entry of `'l'` in the frequency map of `"hello"`. -/
theorem C10_witness :
    0 < (('l', 2) : Char × Nat).2 ∧
      (('l', 2) : Char × Nat).2 = "hello".toList.count (('l', 2) : Char × Nat).1 :=
  (C10_frequency_map_invariants "hello").2.1 ('l', 2) (by decide)

end StringAnalyzer
